import Mathlib

/-!
Verification of the transcript-parsing core of the youtube-to-xml repository.

The development shallowly embeds `src/youtube_to_xml/time_utils.py` and
`src/youtube_to_xml/file_parser.py` (together with the dataclasses of
`models.py` and the two exception classes of `exceptions.py` they raise).

Modelling conventions:
- Python strings are `List Char`; Python lists of lines are `List (List Char)`.
- Python floats are exact here: every value that flows through the parser is
  produced by integer arithmetic, so it is representable exactly; we use `ℚ`
  for finite values and the inductive `PyFloat` where the code distinguishes
  non-finite values (`math.isfinite`, `nan`).  `math.inf` as a chapter end
  time is `(⊤ : WithTop ℚ)`.
- Functions that raise `FileEmptyError` / `FileInvalidFormatError` /
  `ValueError` return `Except`.
- Python whitespace and line-break character classes are modelled for the
  ASCII range plus the common one-byte code points (NEL, NBSP) and the two
  Unicode line separators; the regex character class `\d` is modelled as the
  ASCII digits.  No claim in this development depends on the exotic Unicode
  digits/spaces that Python would additionally accept.
-/

namespace YoutubeToXml

/-! ### Character classes

`isSpaceChar` models the character class Python's `str.strip` / `str.split`
treat as whitespace; `isLineBreakChar` models the code points `str.splitlines`
breaks at (a strict subset of the whitespace class). -/

def isSpaceChar (c : Char) : Bool :=
  c.toNat = 0x20 || c.toNat = 0x09 || c.toNat = 0x0a || c.toNat = 0x0d ||
  c.toNat = 0x0b || c.toNat = 0x0c || c.toNat = 0x1c || c.toNat = 0x1d ||
  c.toNat = 0x1e || c.toNat = 0x1f || c.toNat = 0x85 || c.toNat = 0xa0 ||
  c.toNat = 0x2028 || c.toNat = 0x2029

def isLineBreakChar (c : Char) : Bool :=
  c.toNat = 0x0a || c.toNat = 0x0d || c.toNat = 0x0b || c.toNat = 0x0c ||
  c.toNat = 0x1c || c.toNat = 0x1d || c.toNat = 0x1e || c.toNat = 0x85 ||
  c.toNat = 0x2028 || c.toNat = 0x2029

/-- Python `str.strip()`: drop leading and trailing whitespace. -/
def pyStrip (s : List Char) : List Char :=
  ((s.dropWhile isSpaceChar).reverse.dropWhile isSpaceChar).reverse

/-- Accumulator-based worker for `pySplitlines`.  The accumulator holds the
current (reversed) line; a `\r\n` pair counts as a single break, and a break
that ends the string does not open a trailing empty line (CPython
`str.splitlines` behaviour). -/
def pySplitlinesAux : List Char → List Char → List (List Char)
  | acc, [] => [acc.reverse]
  | acc, '\r' :: '\n' :: rest =>
      acc.reverse :: (if rest.isEmpty then [] else pySplitlinesAux [] rest)
  | acc, c :: rest =>
      if isLineBreakChar c then
        acc.reverse :: (if rest.isEmpty then [] else pySplitlinesAux [] rest)
      else pySplitlinesAux (c :: acc) rest

/-- Python `str.splitlines()`. -/
def pySplitlines (s : List Char) : List (List Char) :=
  if s.isEmpty then [] else pySplitlinesAux [] s

/-- Worker for `pySplit`: split into maximal runs of non-whitespace. -/
def pyWordsAux : List Char → List Char → List (List Char)
  | acc, [] => if acc.isEmpty then [] else [acc.reverse]
  | acc, c :: rest =>
      if isSpaceChar c then
        if acc.isEmpty then pyWordsAux [] rest
        else acc.reverse :: pyWordsAux [] rest
      else pyWordsAux (c :: acc) rest

/-- Python `str.split()` with no separator argument. -/
def pySplit (s : List Char) : List (List Char) := pyWordsAux [] s

/-! ### Decimal digits -/

def digitChar (d : ℕ) : Char := Char.ofNat (48 + d)

def isDigitChar (c : Char) : Bool := 48 ≤ c.toNat && c.toNat ≤ 57

/-- Fuelled worker producing the decimal digits of `n`, least significant
first.  Any fuel value of at least `n` yields the digits of `n`; the fuel only
serves to make the recursion structural so that terms reduce by `rfl`. -/
def natDigitsAux : ℕ → ℕ → List Char
  | _, 0 => []
  | 0, _ + 1 => []
  | f + 1, n + 1 => digitChar ((n + 1) % 10) :: natDigitsAux f ((n + 1) / 10)

def natDigitsRev (n : ℕ) : List Char := natDigitsAux n n

/-- Decimal rendering of a natural number, as produced by a Python f-string
with no width directive. -/
def natDigits (n : ℕ) : List Char :=
  if n = 0 then ['0'] else (natDigitsRev n).reverse

/-- Python format directive `02d`: decimal, zero-padded to width 2. -/
def pad2 (n : ℕ) : List Char :=
  if n < 10 then '0' :: natDigits n else natDigits n

/-- Python `int()` on a run of decimal digits. -/
def parseNatDigits (l : List Char) : ℕ :=
  l.foldl (fun acc c => 10 * acc + (c.toNat - 48)) 0

/-- Python `str.split(":")`: split at every colon, keeping empty parts. -/
def splitCol : List Char → List (List Char)
  | [] => [[]]
  | c :: rest =>
      if c = ':' then [] :: splitCol rest
      else
        match splitCol rest with
        | [] => [[c]]
        | p :: ps => (c :: p) :: ps

/-! ### Exceptions (`exceptions.py`) -/

/-- The two exception classes raised by the file parser and the codec's
parsing direction: `FileEmptyError` and `FileInvalidFormatError` (with its
message). -/
inductive FileError where
  | fileEmptyError : FileError
  | fileInvalidFormatError : List Char → FileError
deriving DecidableEq

/-- Python's builtin `ValueError`, raised by `seconds_to_timestamp`. -/
inductive PyValueError where
  | valueError : List Char → PyValueError
deriving DecidableEq

/-! ### Timestamp codec (`time_utils.py`) -/

/-- Second or third component of a timestamp: exactly two characters
`[0-5][0-9]`. -/
def sexagesimalPair : List Char → Bool
  | [c1, c2] => (48 ≤ c1.toNat && c1.toNat ≤ 53) && isDigitChar c2
  | _ => false

def allCharsDigits (l : List Char) : Bool := l.all isDigitChar

/-- Model of `TIMESTAMP_PATTERN.match` applied to a whole (already stripped)
string.  The source regex (fully anchored) is
`(\d{1,2}:[0-5]\d(:[0-5]\d)?|\d{3}:[0-5]\d:[0-5]\d)`.
Because a colon can never occur inside a digit run, a string matches the regex
iff splitting it at every colon yields either two parts (first: 1-2 digits,
second: a sexagesimal pair) or three parts (first: 1-3 digits, second and
third: sexagesimal pairs); the three-part digit-count range 1-3 is the union
of the regex's two alternatives. -/
def matchesTimestampPattern (s : List Char) : Bool :=
  match splitCol s with
  | [p1, p2] =>
      decide (1 ≤ p1.length) && decide (p1.length ≤ 2) &&
      allCharsDigits p1 && sexagesimalPair p2
  | [p1, p2, p3] =>
      decide (1 ≤ p1.length) && decide (p1.length ≤ 3) &&
      allCharsDigits p1 && sexagesimalPair p2 && sexagesimalPair p3
  | _ => false

/-- Source idiom `TIMESTAMP_PATTERN.match(line.strip())` used throughout
`file_parser.py`. -/
def isTimestampLine (line : List Char) : Bool :=
  matchesTimestampPattern (pyStrip line)

def invalidTimestampMessage (s : List Char) : List Char :=
  "Invalid timestamp format: ".toList ++ s

/-- Model of `timestamp_to_seconds`: strip, validate against the pattern,
split at colons and combine the parts (`M:SS` or `H:MM:SS`).  The two
unreachable fallthrough branches mirror the source's trailing raise. -/
def timestamp_to_seconds (timestamp_str : List Char) : Except FileError ℚ :=
  let ts := pyStrip timestamp_str
  if matchesTimestampPattern ts then
    match splitCol ts with
    | [minutes, seconds] =>
        .ok ((parseNatDigits minutes * 60 + parseNatDigits seconds : ℕ) : ℚ)
    | [hours, minutes, seconds] =>
        .ok ((parseNatDigits hours * 3600 + parseNatDigits minutes * 60 +
              parseNatDigits seconds : ℕ) : ℚ)
    | _ => .error (.fileInvalidFormatError (invalidTimestampMessage timestamp_str))
  else .error (.fileInvalidFormatError (invalidTimestampMessage timestamp_str))

/-- Python float arguments of `seconds_to_timestamp`: a finite value (exact,
as a rational) or one of the three non-finite values. -/
inductive PyFloat where
  | finite : ℚ → PyFloat
  | posInf : PyFloat
  | negInf : PyFloat
  | nan : PyFloat
deriving DecidableEq

def PyFloat.isfinite : PyFloat → Bool
  | .finite _ => true
  | _ => false

/-- IEEE comparison `x < 0` (false for NaN). -/
def PyFloat.isNegative : PyFloat → Bool
  | .finite q => decide (q < 0)
  | .negInf => true
  | _ => false

/-- Value of a finite `PyFloat`; only ever read behind the `isfinite` guard. -/
def PyFloat.finiteValue : PyFloat → ℚ
  | .finite q => q
  | _ => 0

/-- Model of `seconds_to_timestamp`.  Python `int()` truncates toward zero;
behind the guard the argument is ≥ 0, so truncation is `Int.floor`. -/
def seconds_to_timestamp (seconds : PyFloat) : Except PyValueError (List Char) :=
  if !seconds.isfinite || seconds.isNegative then
    .error (.valueError "seconds must be finite and >= 0".toList)
  else
    let total_seconds : ℕ := (⌊seconds.finiteValue⌋).toNat
    let hours := total_seconds / 3600
    let minutes := total_seconds % 3600 / 60
    let secs := total_seconds % 60
    if hours > 0 then
      .ok (natDigits hours ++ ':' :: (pad2 minutes ++ ':' :: pad2 secs))
    else
      .ok (natDigits minutes ++ ':' :: pad2 secs)

/-! ### Data model (`models.py`) -/

structure TranscriptLine where
  timestamp : ℚ
  text : List Char
deriving DecidableEq

structure Chapter where
  title : List Char
  start_time : ℚ
  end_time : WithTop ℚ
  transcript_lines : List TranscriptLine
deriving DecidableEq

structure VideoMetadata where
  video_title : List Char
  video_published : List Char
  video_duration : ℕ
  video_url : List Char
deriving DecidableEq

/-- The `VideoMetadata()` value used for the file method (all fields empty). -/
def emptyVideoMetadata : VideoMetadata := ⟨[], [], 0, []⟩

structure TranscriptDocument where
  metadata : VideoMetadata
  chapters : List Chapter
deriving DecidableEq

/-! ### File parser (`file_parser.py`) -/

/-- Model of `find_timestamps`: indices of lines matching the timestamp
pattern, in ascending order. -/
def find_timestamps (transcript_lines : List (List Char)) : List ℕ :=
  (List.range transcript_lines.length).filter
    (fun i => isTimestampLine (transcript_lines.getD i []))

def minimumLinesMessage : List Char :=
  "File must have at least 3 lines: chapter title, timestamp, transcript".toList

def firstLineMessage : List Char :=
  "First line must be chapter title, not timestamp".toList

def secondLineMessage : List Char :=
  "Second line must be a timestamp".toList

def thirdLineMessage : List Char :=
  "Third line must be transcript text, not timestamp".toList

/-- Model of `validate_transcript_format`. -/
def validate_transcript_format (raw_transcript : List Char) : Except FileError Unit :=
  if (pyStrip raw_transcript).isEmpty then .error .fileEmptyError
  else
    let non_empty_lines :=
      (pySplitlines raw_transcript).filter (fun l => !(pyStrip l).isEmpty)
    if non_empty_lines.length < 3 then
      .error (.fileInvalidFormatError minimumLinesMessage)
    else if isTimestampLine (non_empty_lines.getD 0 []) then
      .error (.fileInvalidFormatError firstLineMessage)
    else if !isTimestampLine (non_empty_lines.getD 1 []) then
      .error (.fileInvalidFormatError secondLineMessage)
    else if isTimestampLine (non_empty_lines.getD 2 []) then
      .error (.fileInvalidFormatError thirdLineMessage)
    else .ok ()

/-- The per-chapter metadata dict built by the two chapter finders. -/
structure ChapterMeta where
  title_index : ℕ
  title : List Char
  start_time : ℚ
  transcript_start : ℕ
deriving DecidableEq

/-- Model of `_find_first_chapter`.  The source indexes
`transcript_lines[0]` and `timestamp_indices[0]` unguarded; both lists are
non-empty at every call site (validation guarantees at least three lines with
a timestamp among them), which the `getD` defaults make total. -/
def find_first_chapter (transcript_lines : List (List Char))
    (timestamp_indices : List ℕ) : Except FileError (Option ChapterMeta) :=
  if isTimestampLine (transcript_lines.getD 0 []) then .ok none
  else do
    let st ← timestamp_to_seconds
      (transcript_lines.getD (timestamp_indices.getD 0 0) [])
    .ok (some { title_index := 0, title := transcript_lines.getD 0 [],
                start_time := st,
                transcript_start := timestamp_indices.getD 0 0 })

/-- Constant `LINES_FOR_CHAPTER_BOUNDARY` of the source. -/
def LINES_FOR_CHAPTER_BOUNDARY : ℤ := 2

/-- Model of `_find_subsequent_chapters`: iterate over adjacent pairs of
timestamp indices; a gap of exactly two lines opens a new chapter.  The
subtraction is over ℤ exactly as in Python. -/
def find_subsequent_chapters (transcript_lines : List (List Char)) :
    List ℕ → Except FileError (List ChapterMeta)
  | current_idx :: next_idx :: rest =>
      if (next_idx : ℤ) - (current_idx : ℤ) - 1 = LINES_FOR_CHAPTER_BOUNDARY then do
        let st ← timestamp_to_seconds (transcript_lines.getD next_idx [])
        let tail ← find_subsequent_chapters transcript_lines (next_idx :: rest)
        .ok ({ title_index := next_idx - 1,
               title := transcript_lines.getD (next_idx - 1) [],
               start_time := st, transcript_start := next_idx } :: tail)
      else find_subsequent_chapters transcript_lines (next_idx :: rest)
  | _ => .ok []

/-- The `chapters_metadata` sequence built inside `parse_transcript_document`:
the optional first chapter followed by all subsequent chapters. -/
def collect_chapters_metadata (transcript_lines : List (List Char))
    (timestamp_indices : List ℕ) : Except FileError (List ChapterMeta) := do
  let first ← find_first_chapter transcript_lines timestamp_indices
  let subs ← find_subsequent_chapters transcript_lines timestamp_indices
  .ok (first.toList ++ subs)

/-- Model of `_sanitize_transcript_spacing`: drop blank lines, collapse
whitespace runs to single spaces, rejoin with newlines. -/
def sanitize_transcript_spacing (raw_transcript : List Char) : List Char :=
  List.intercalate ['\n']
    (((pySplitlines raw_transcript).filter (fun l => !(pyStrip l).isEmpty)).map
      (fun line => List.intercalate [' '] (pySplit line)))

/-- Model of `_convert_string_lines_to_transcript_objects`.  The source is a
while loop over an index advancing by 1 or 2; it is rendered here as a
recursion on the unconsumed suffix consuming one or two list cells per step,
with the same branch structure. -/
def convert_string_lines_to_transcript_objects :
    List (List Char) → Except FileError (List TranscriptLine)
  | [] => .ok []
  | line :: rest =>
      if isTimestampLine line then
        match rest with
        | next :: rest2 =>
            if isTimestampLine next then do
              let q ← timestamp_to_seconds line
              let tail ← convert_string_lines_to_transcript_objects (next :: rest2)
              .ok ({ timestamp := q, text := [] } :: tail)
            else do
              let q ← timestamp_to_seconds line
              let tail ← convert_string_lines_to_transcript_objects rest2
              .ok ({ timestamp := q, text := next } :: tail)
        | [] => do
            let q ← timestamp_to_seconds line
            .ok [{ timestamp := q, text := [] }]
      else convert_string_lines_to_transcript_objects rest

/-- Python slice `l[a:b]` for natural indices. -/
def listSlice (l : List (List Char)) (a b : ℕ) : List (List Char) :=
  (l.drop a).take (b - a)

def monotonicMessage : List Char :=
  "Subsequent chapter timestamps must be strictly increasing".toList

/-- The chapter-building loop of `parse_transcript_document`: for every
non-last chapter the end time is the next chapter's start time (checked to be
strictly larger first); the last chapter extends to `math.inf`. -/
def build_document_chapters (transcript_lines : List (List Char)) :
    List ChapterMeta → Except FileError (List Chapter)
  | [] => .ok []
  | [meta] => do
      let tls ← convert_string_lines_to_transcript_objects
        (listSlice transcript_lines meta.transcript_start transcript_lines.length)
      .ok [{ title := meta.title, start_time := meta.start_time, end_time := ⊤,
             transcript_lines := tls }]
  | meta :: next :: rest =>
      if next.start_time ≤ meta.start_time then
        .error (.fileInvalidFormatError monotonicMessage)
      else do
        let tls ← convert_string_lines_to_transcript_objects
          (listSlice transcript_lines meta.transcript_start next.title_index)
        let tail ← build_document_chapters transcript_lines (next :: rest)
        .ok ({ title := meta.title, start_time := meta.start_time,
               end_time := (next.start_time : WithTop ℚ),
               transcript_lines := tls } :: tail)

/-- Model of `parse_transcript_document`. -/
def parse_transcript_document (raw_transcript : List Char) :
    Except FileError TranscriptDocument := do
  let sanitized := sanitize_transcript_spacing raw_transcript
  let _u ← validate_transcript_format sanitized
  let transcript_lines := pySplitlines sanitized
  let timestamp_indices := find_timestamps transcript_lines
  let metas ← collect_chapters_metadata transcript_lines timestamp_indices
  let chapters ← build_document_chapters transcript_lines metas
  .ok { metadata := emptyVideoMetadata, chapters := chapters }

/-- Python string comparison `s < t`: lexicographic by code point, a proper
initial segment counts as smaller. -/
def pyStrLt : List Char → List Char → Bool
  | [], [] => false
  | [], _ :: _ => true
  | _ :: _, [] => false
  | a :: as, b :: bs =>
      if a < b then true
      else if b < a then false
      else pyStrLt as bs

/-- Python string comparison `s <= t`. -/
def pyStrLe (s t : List Char) : Bool := pyStrLt s t || s = t

/-- Decidable equality of `Except` results, used to evaluate the model at
concrete inputs. -/
instance {ε α : Type} [DecidableEq ε] [DecidableEq α] :
    DecidableEq (Except ε α) := fun x y =>
  match x, y with
  | .ok a, .ok b =>
      if h : a = b then .isTrue (by rw [h]) else .isFalse (by simp [h])
  | .error e, .error f =>
      if h : e = f then .isTrue (by rw [h]) else .isFalse (by simp [h])
  | .ok _, .error _ => .isFalse (by simp)
  | .error _, .ok _ => .isFalse (by simp)

/-- Concrete eight-line transcript used to exercise the gap rule: the pair of
timestamps at indices 3 and 6 has exactly two lines between them, so the line
at index 5 opens a second chapter. -/
def sampleLines : List (List Char) :=
  ["Intro".toList, "0:00".toList, "A".toList, "2:30".toList, "B".toList,
   "Two".toList, "5:00".toList, "C".toList]

/-- Concrete raw input producing two chapters. -/
def twoChapterInput : List Char := "Intro\n0:00\nA\n2:30\nB\nTwo\n5:00\nC".toList

/-- The document the parser produces for `twoChapterInput`. -/
def twoChapterDoc : TranscriptDocument :=
  { metadata := emptyVideoMetadata,
    chapters :=
      [{ title := "Intro".toList, start_time := 0,
         end_time := ((300 : ℚ) : WithTop ℚ),
         transcript_lines := [{ timestamp := 0, text := "A".toList },
                              { timestamp := 150, text := "B".toList }] },
       { title := "Two".toList, start_time := 300, end_time := ⊤,
         transcript_lines := [{ timestamp := 300, text := "C".toList }] }] }

/-- Concrete raw input whose second inferred chapter starts earlier than the
first (out-of-order timestamps across a two-line gap). -/
def outOfOrderInput : List Char := "A\n5:00\nx\nB\n2:00\ny".toList

/-- The chapter metadata the finders produce for `outOfOrderInput`. -/
def outOfOrderMetas : List ChapterMeta :=
  [{ title_index := 0, title := "A".toList, start_time := 300,
     transcript_start := 1 },
   { title_index := 3, title := "B".toList, start_time := 120,
     transcript_start := 4 }]

/-- Concrete raw input with a timestamp that runs backwards inside a single
chapter window (a one-line gap, so no chapter boundary is created). -/
def backwardsInput : List Char := "Title\n0:10\ntext\n0:05\ntext".toList

/-- The single chapter the parser produces for `backwardsInput`: its second
transcript line carries timestamp 5, below the chapter's start time 10. -/
def backwardsChapter : Chapter :=
  { title := "Title".toList, start_time := 10, end_time := ⊤,
    transcript_lines := [{ timestamp := 10, text := "text".toList },
                         { timestamp := 5, text := "text".toList }] }

end YoutubeToXml

namespace YoutubeToXml

set_option maxRecDepth 40000

/-! ### Lemmas about decimal digits -/

theorem natDigitsAux_congr :
    ∀ n f1 f2 : ℕ, n ≤ f1 → n ≤ f2 → natDigitsAux f1 n = natDigitsAux f2 n := by
  intro n
  induction n using Nat.strong_induction_on with
  | _ n ih =>
    intro f1 f2 h1 h2
    match n, f1, f2 with
    | 0, f1, f2 => simp [natDigitsAux]
    | n + 1, f1 + 1, f2 + 1 =>
      simp only [natDigitsAux]
      have hdiv : (n + 1) / 10 < n + 1 := Nat.div_lt_self (Nat.succ_pos n) (by norm_num)
      exact congrArg _ (ih ((n + 1) / 10) hdiv (f1) (f2) (by omega) (by omega))

theorem natDigitsRev_succ {n : ℕ} (h : n ≠ 0) :
    natDigitsRev n = digitChar (n % 10) :: natDigitsRev (n / 10) := by
  match n, h with
  | n + 1, _ =>
    show natDigitsAux (n + 1) (n + 1) = _
    simp only [natDigitsAux]
    have hdiv : (n + 1) / 10 < n + 1 := Nat.div_lt_self (Nat.succ_pos n) (by norm_num)
    exact congrArg _ (natDigitsAux_congr ((n + 1) / 10) n ((n + 1) / 10) (by omega) le_rfl)

theorem natDigits_single {n : ℕ} (h : n < 10) : natDigits n = [digitChar n] := by
  rcases Nat.eq_zero_or_pos n with h0 | h0
  · subst h0; rfl
  · have hne : n ≠ 0 := Nat.pos_iff_ne_zero.mp h0
    unfold natDigits
    rw [if_neg hne, natDigitsRev_succ hne, Nat.mod_eq_of_lt h, Nat.div_eq_of_lt h]
    rfl

theorem natDigits_decomp {n : ℕ} (h : 10 ≤ n) :
    natDigits n = natDigits (n / 10) ++ [digitChar (n % 10)] := by
  have hne : n ≠ 0 := by omega
  have hdne : n / 10 ≠ 0 := by
    have := Nat.div_le_div_right (c := 10) h
    simpa using fun hz => by omega
  unfold natDigits
  rw [if_neg hne, if_neg hdne, natDigitsRev_succ hne]
  simp


/-! ### Bounded digit facts (established by exhaustive evaluation) -/

theorem pad2_facts : ∀ n : ℕ, n < 60 →
    sexagesimalPair (pad2 n) = true ∧ (pad2 n).length = 2 ∧
    parseNatDigits (pad2 n) = n ∧ allCharsDigits (pad2 n) = true := by decide

theorem natDigits_facts_60 : ∀ n : ℕ, n < 60 →
    1 ≤ (natDigits n).length ∧ (natDigits n).length ≤ 2 ∧
    allCharsDigits (natDigits n) = true ∧ parseNatDigits (natDigits n) = n := by
  decide

theorem natDigits_facts_1000 : ∀ n : ℕ, n < 1000 →
    1 ≤ (natDigits n).length ∧ (natDigits n).length ≤ 3 ∧
    allCharsDigits (natDigits n) = true ∧ parseNatDigits (natDigits n) = n := by
  decide

/-! ### Character-class lemmas -/

theorem isDigitChar_not_space {c : Char} (h : isDigitChar c = true) :
    isSpaceChar c = false := by
  simp only [isDigitChar, Bool.and_eq_true, decide_eq_true_eq] at h
  simp only [isSpaceChar, Bool.or_eq_false_iff, decide_eq_false_iff_not]
  omega

theorem isDigitChar_ne_colon {c : Char} (h : isDigitChar c = true) : c ≠ ':' := by
  intro hc
  subst hc
  exact absurd h (by decide)

theorem allCharsDigits_no_colon {l : List Char} (h : allCharsDigits l = true) :
    ¬ ':' ∈ l := by
  intro hmem
  have := List.all_eq_true.mp h _ hmem
  exact absurd this (by decide)

theorem allCharsDigits_no_space {l : List Char} (h : allCharsDigits l = true) :
    ∀ c ∈ l, isSpaceChar c = false := by
  intro c hc
  exact isDigitChar_not_space (List.all_eq_true.mp h _ hc)

theorem sexagesimalPair_shape {p : List Char} (h : sexagesimalPair p = true) :
    p.length = 2 ∧ allCharsDigits p = true := by
  match p, h with
  | [c1, c2], h =>
    simp only [sexagesimalPair, Bool.and_eq_true, decide_eq_true_eq] at h
    refine ⟨rfl, ?_⟩
    simp only [allCharsDigits, List.all_cons, List.all_nil, Bool.and_eq_true]
    refine ⟨?_, h.2, trivial⟩
    simp only [isDigitChar, Bool.and_eq_true, decide_eq_true_eq]
    omega

/-! ### Lemmas about splitting at colons -/

theorem splitCol_ne_nil : ∀ l : List Char, splitCol l ≠ [] := by
  intro l
  induction l with
  | nil => simp [splitCol]
  | cons c rest ih =>
    simp only [splitCol]
    by_cases hc : c = ':'
    · simp [hc]
    · rw [if_neg hc]
      rcases hsp : splitCol rest with _ | ⟨p, ps⟩
      · simp
      · simp

theorem splitCol_no_colon {a : List Char} (h : ¬ ':' ∈ a) : splitCol a = [a] := by
  induction a with
  | nil => rfl
  | cons c rest ih =>
    have hc : c ≠ ':' := fun hx => h (hx ▸ List.mem_cons_self c rest)
    have hr : ¬ ':' ∈ rest := fun hx => h (List.mem_cons_of_mem c hx)
    simp only [splitCol, if_neg hc, ih hr]

theorem splitCol_append_colon {a : List Char} (h : ¬ ':' ∈ a) (b : List Char) :
    splitCol (a ++ ':' :: b) = a :: splitCol b := by
  induction a with
  | nil => simp [splitCol]
  | cons c rest ih =>
    have hc : c ≠ ':' := fun hx => h (hx ▸ List.mem_cons_self c rest)
    have hr : ¬ ':' ∈ rest := fun hx => h (List.mem_cons_of_mem c hx)
    simp only [List.cons_append, splitCol, if_neg hc, List.append_eq]
    rw [ih hr]

/-! ### Lemmas about stripping -/

theorem dropWhile_eq_self_of_none {p : Char → Bool} {l : List Char}
    (h : ∀ c ∈ l, p c = false) : l.dropWhile p = l := by
  cases l with
  | nil => rfl
  | cons c rest => simp [List.dropWhile_cons, h c (List.mem_cons_self c rest)]

theorem pyStrip_eq_self {l : List Char} (h : ∀ c ∈ l, isSpaceChar c = false) :
    pyStrip l = l := by
  unfold pyStrip
  rw [dropWhile_eq_self_of_none h,
      dropWhile_eq_self_of_none (fun c hc => h c (List.mem_reverse.mp hc)),
      List.reverse_reverse]


/-! ### Reduction lemmas for the Except monad -/

theorem exceptBind_ok {ε α β : Type} (a : α) (f : α → Except ε β) :
    (do let x ← (.ok a : Except ε α); f x) = f a := rfl

theorem exceptBind_error {ε α β : Type} (e : ε) (f : α → Except ε β) :
    (do let x ← (.error e : Except ε α); f x) = .error e := rfl

/-! ### Behaviour of the timestamp codec on matching strings -/

theorem matches_shape {s : List Char} (h : matchesTimestampPattern s = true) :
    (∃ p1 p2, splitCol s = [p1, p2] ∧ 1 ≤ p1.length ∧ p1.length ≤ 2 ∧
      allCharsDigits p1 = true ∧ sexagesimalPair p2 = true) ∨
    (∃ p1 p2 p3, splitCol s = [p1, p2, p3] ∧ 1 ≤ p1.length ∧ p1.length ≤ 3 ∧
      allCharsDigits p1 = true ∧ sexagesimalPair p2 = true ∧
      sexagesimalPair p3 = true) := by
  unfold matchesTimestampPattern at h
  rcases hsp : splitCol s with _ | ⟨p1, _ | ⟨p2, _ | ⟨p3, _ | ⟨p4, ps⟩⟩⟩⟩ <;>
      rw [hsp] at h
  · exact absurd h (by simp)
  · exact absurd h (by simp)
  · left
    simp only [Bool.and_eq_true, decide_eq_true_eq] at h
    exact ⟨p1, p2, rfl, h.1.1.1, h.1.1.2, h.1.2, h.2⟩
  · right
    simp only [Bool.and_eq_true, decide_eq_true_eq] at h
    exact ⟨p1, p2, p3, rfl, h.1.1.1.1, h.1.1.1.2, h.1.1.2, h.1.2, h.2⟩
  · exact absurd h (by simp)

theorem timestamp_to_seconds_two_parts {s p1 p2 : List Char}
    (hsp : splitCol (pyStrip s) = [p1, p2]) (h1 : 1 ≤ p1.length)
    (h2 : p1.length ≤ 2) (hd : allCharsDigits p1 = true)
    (hp : sexagesimalPair p2 = true) :
    timestamp_to_seconds s =
      .ok ((parseNatDigits p1 * 60 + parseNatDigits p2 : ℕ) : ℚ) := by
  have hm : matchesTimestampPattern (pyStrip s) = true := by
    unfold matchesTimestampPattern
    rw [hsp]
    simp [h1, h2, hd, hp]
  unfold timestamp_to_seconds
  simp only [hm, if_true, hsp]

theorem timestamp_to_seconds_three_parts {s p1 p2 p3 : List Char}
    (hsp : splitCol (pyStrip s) = [p1, p2, p3]) (h1 : 1 ≤ p1.length)
    (h2 : p1.length ≤ 3) (hd : allCharsDigits p1 = true)
    (hp2 : sexagesimalPair p2 = true) (hp3 : sexagesimalPair p3 = true) :
    timestamp_to_seconds s =
      .ok ((parseNatDigits p1 * 3600 + parseNatDigits p2 * 60 +
            parseNatDigits p3 : ℕ) : ℚ) := by
  have hm : matchesTimestampPattern (pyStrip s) = true := by
    unfold matchesTimestampPattern
    rw [hsp]
    simp [h1, h2, hd, hp2, hp3]
  unfold timestamp_to_seconds
  simp only [hm, if_true, hsp]

theorem timestamp_to_seconds_not_matching {s : List Char}
    (h : matchesTimestampPattern (pyStrip s) = false) :
    timestamp_to_seconds s =
      .error (.fileInvalidFormatError (invalidTimestampMessage s)) := by
  unfold timestamp_to_seconds
  simp [h]

theorem timestamp_to_seconds_ok_of_matches {s : List Char}
    (h : matchesTimestampPattern (pyStrip s) = true) :
    ∃ q : ℚ, timestamp_to_seconds s = .ok q := by
  rcases matches_shape h with
      ⟨p1, p2, hsp, h1, h2, hd, hp⟩ | ⟨p1, p2, p3, hsp, h1, h2, hd, hp2, hp3⟩
  · exact ⟨_, timestamp_to_seconds_two_parts hsp h1 h2 hd hp⟩
  · exact ⟨_, timestamp_to_seconds_three_parts hsp h1 h2 hd hp2 hp3⟩

/-! ### The pairing walk never fails -/

theorem convert_total (raw : List (List Char)) :
    ∃ v, convert_string_lines_to_transcript_objects raw = .ok v := by
  induction raw using convert_string_lines_to_transcript_objects.induct with
  | case1 => exact ⟨[], rfl⟩
  | case2 line hl next rest2 hn ih =>
    rcases ih with ⟨v, hv⟩
    rcases timestamp_to_seconds_ok_of_matches (s := line) hl with ⟨q, hq⟩
    refine ⟨{ timestamp := q, text := [] } :: v, ?_⟩
    simp [convert_string_lines_to_transcript_objects, hl, hn, hq, hv, exceptBind_ok]
  | case3 line hl next rest2 hn ih =>
    rcases ih with ⟨v, hv⟩
    rcases timestamp_to_seconds_ok_of_matches (s := line) hl with ⟨q, hq⟩
    refine ⟨{ timestamp := q, text := next } :: v, ?_⟩
    simp [convert_string_lines_to_transcript_objects, hl, hn, hq, hv, exceptBind_ok]
  | case4 line hl =>
    rcases timestamp_to_seconds_ok_of_matches (s := line) hl with ⟨q, hq⟩
    refine ⟨[{ timestamp := q, text := [] }], ?_⟩
    simp [convert_string_lines_to_transcript_objects, hl, hq, exceptBind_ok]
  | case5 line ps hl ih =>
    rcases ih with ⟨v, hv⟩
    refine ⟨v, ?_⟩
    cases ps <;> simpa [convert_string_lines_to_transcript_objects, hl] using hv


/-! ### Claim C7 -/

/-- C7: for every string that, after trimming surrounding whitespace, matches
the timestamp grammar (M:SS or MM:SS with seconds 00-59, or H:MM:SS with 1-3
digit hours and minutes and seconds each 00-59), `timestamp_to_seconds`
returns hours*3600 + minutes*60 + seconds (hours = 0 for the two-part form);
for every string that does not match after trimming, it raises
`FileInvalidFormatError` carrying the offending string. -/
theorem c7_timestamp_to_seconds_spec (s : List Char) :
    (∀ p1 p2 : List Char, pyStrip s = p1 ++ ':' :: p2 →
      1 ≤ p1.length → p1.length ≤ 2 → allCharsDigits p1 = true →
      sexagesimalPair p2 = true →
      timestamp_to_seconds s =
        .ok ((parseNatDigits p1 * 60 + parseNatDigits p2 : ℕ) : ℚ)) ∧
    (∀ p1 p2 p3 : List Char, pyStrip s = p1 ++ ':' :: (p2 ++ ':' :: p3) →
      1 ≤ p1.length → p1.length ≤ 3 → allCharsDigits p1 = true →
      sexagesimalPair p2 = true → sexagesimalPair p3 = true →
      timestamp_to_seconds s =
        .ok ((parseNatDigits p1 * 3600 + parseNatDigits p2 * 60 +
              parseNatDigits p3 : ℕ) : ℚ)) ∧
    (matchesTimestampPattern (pyStrip s) = false →
      timestamp_to_seconds s =
        .error (.fileInvalidFormatError (invalidTimestampMessage s))) := by
  refine ⟨?_, ?_, ?_⟩
  · intro p1 p2 hdec h1 h2 hd hp
    have hnc1 : ¬ ':' ∈ p1 := allCharsDigits_no_colon hd
    have hnc2 : ¬ ':' ∈ p2 := allCharsDigits_no_colon (sexagesimalPair_shape hp).2
    have hsp : splitCol (pyStrip s) = [p1, p2] := by
      rw [hdec, splitCol_append_colon hnc1, splitCol_no_colon hnc2]
    exact timestamp_to_seconds_two_parts hsp h1 h2 hd hp
  · intro p1 p2 p3 hdec h1 h2 hd hp2 hp3
    have hnc1 : ¬ ':' ∈ p1 := allCharsDigits_no_colon hd
    have hnc2 : ¬ ':' ∈ p2 := allCharsDigits_no_colon (sexagesimalPair_shape hp2).2
    have hnc3 : ¬ ':' ∈ p3 := allCharsDigits_no_colon (sexagesimalPair_shape hp3).2
    have hsp : splitCol (pyStrip s) = [p1, p2, p3] := by
      rw [hdec, splitCol_append_colon hnc1, splitCol_append_colon hnc2,
          splitCol_no_colon hnc3]
    exact timestamp_to_seconds_three_parts hsp h1 h2 hd hp2 hp3
  · exact timestamp_to_seconds_not_matching

/-- Witness for C7 at the concrete inputs `1:15:30` (grammar decomposition
hypotheses discharged by evaluation) and `abc` (non-matching). -/
theorem c7_timestamp_to_seconds_spec_witness :
    pyStrip "1:15:30".toList = ['1'] ++ ':' :: (['1', '5'] ++ ':' :: ['3', '0']) ∧
    timestamp_to_seconds "1:15:30".toList =
      .ok ((parseNatDigits ['1'] * 3600 + parseNatDigits ['1', '5'] * 60 +
            parseNatDigits ['3', '0'] : ℕ) : ℚ) ∧
    matchesTimestampPattern (pyStrip "abc".toList) = false ∧
    timestamp_to_seconds "abc".toList =
      .error (.fileInvalidFormatError (invalidTimestampMessage "abc".toList)) :=
  ⟨by decide,
   (c7_timestamp_to_seconds_spec "1:15:30".toList).2.1 ['1'] ['1', '5'] ['3', '0']
     (by decide) (by decide) (by decide) (by decide) (by decide) (by decide),
   by decide,
   (c7_timestamp_to_seconds_spec "abc".toList).2.2 (by decide)⟩

/-- Rendering equation of `seconds_to_timestamp` for finite non-negative
arguments (shared by several claims). -/
theorem seconds_to_timestamp_render : ∀ q : ℚ, ¬ q < 0 →
    seconds_to_timestamp (.finite q) =
      .ok (if ⌊q⌋.toNat / 3600 > 0 then
            natDigits (⌊q⌋.toNat / 3600) ++ ':' ::
              (pad2 (⌊q⌋.toNat % 3600 / 60) ++ ':' :: pad2 (⌊q⌋.toNat % 60))
           else natDigits (⌊q⌋.toNat % 3600 / 60) ++ ':' :: pad2 (⌊q⌋.toNat % 60)) := by
  intro q hq
  unfold seconds_to_timestamp
  rw [if_neg (by simp [PyFloat.isfinite, PyFloat.isNegative, hq])]
  simp only [PyFloat.finiteValue]
  split
  · rfl
  · rfl

/-! ### Claim C8 -/

/-- C8: `seconds_to_timestamp` raises `ValueError` iff its argument is
negative, infinite or NaN; for every finite argument ≥ 0 it truncates (floors)
to whole seconds, decomposes by integer division by 3600 and 60, and renders
H:MM:SS (hours unpadded, minutes and seconds zero-padded to width 2) when
hours > 0, and M:SS (minutes unpadded, seconds zero-padded) otherwise. -/
theorem c8_seconds_to_timestamp_spec (x : PyFloat) :
    ((∃ e, seconds_to_timestamp x = .error e) ↔
      x = .posInf ∨ x = .negInf ∨ x = .nan ∨ ∃ q : ℚ, q < 0 ∧ x = .finite q) ∧
    (∀ q : ℚ, 0 ≤ q → x = .finite q →
      seconds_to_timestamp x =
        .ok (if ⌊q⌋.toNat / 3600 > 0 then
              natDigits (⌊q⌋.toNat / 3600) ++ ':' ::
                (pad2 (⌊q⌋.toNat % 3600 / 60) ++ ':' :: pad2 (⌊q⌋.toNat % 60))
             else natDigits (⌊q⌋.toNat % 3600 / 60) ++ ':' :: pad2 (⌊q⌋.toNat % 60)) ∧
      (pad2 (⌊q⌋.toNat % 3600 / 60)).length = 2 ∧
      (pad2 (⌊q⌋.toNat % 60)).length = 2) := by
  have hmain := seconds_to_timestamp_render
  constructor
  · cases x with
    | finite q =>
      by_cases hq : q < 0
      · constructor
        · intro _
          exact Or.inr (Or.inr (Or.inr ⟨q, hq, rfl⟩))
        · intro _
          refine ⟨.valueError "seconds must be finite and >= 0".toList, ?_⟩
          simp [seconds_to_timestamp, PyFloat.isfinite, PyFloat.isNegative, hq]
      · constructor
        · rintro ⟨e, he⟩
          rw [hmain q hq] at he
          exact absurd he (by simp)
        · rintro (h | h | h | ⟨q2, hq2, heq⟩)
          · exact absurd h (by simp)
          · exact absurd h (by simp)
          · exact absurd h (by simp)
          · rw [PyFloat.finite.injEq] at heq
            exact absurd (heq ▸ hq2) hq
    | posInf =>
      constructor
      · intro _
        exact Or.inl rfl
      · intro _
        exact ⟨.valueError "seconds must be finite and >= 0".toList, rfl⟩
    | negInf =>
      constructor
      · intro _
        exact Or.inr (Or.inl rfl)
      · intro _
        exact ⟨.valueError "seconds must be finite and >= 0".toList, rfl⟩
    | nan =>
      constructor
      · intro _
        exact Or.inr (Or.inr (Or.inl rfl))
      · intro _
        exact ⟨.valueError "seconds must be finite and >= 0".toList, rfl⟩
  · intro q hq hx
    subst hx
    have h60a : ⌊q⌋.toNat % 3600 / 60 < 60 :=
      (Nat.div_lt_iff_lt_mul (by norm_num)).mpr (Nat.mod_lt _ (by norm_num))
    have h60b : ⌊q⌋.toNat % 60 < 60 := Nat.mod_lt _ (by norm_num)
    exact ⟨hmain q (not_lt.mpr hq), (pad2_facts _ h60a).2.1, (pad2_facts _ h60b).2.1⟩

/-- Witness for C8 at NaN (error side) and at the concrete value 4530.7
(rendering side: the fractional part is truncated away). -/
theorem c8_seconds_to_timestamp_spec_witness :
    (∃ e, seconds_to_timestamp .nan = .error e) ∧
    seconds_to_timestamp (.finite (Rat.mk' 45307 10)) = .ok "1:15:30".toList := by
  constructor
  · exact (c8_seconds_to_timestamp_spec .nan).1.mpr (Or.inr (Or.inr (Or.inl rfl)))
  · have h := (c8_seconds_to_timestamp_spec (.finite (Rat.mk' 45307 10))).2
      (Rat.mk' 45307 10) (by decide) rfl
    rw [h.1]
    decide


/-! ### Blank-input characterisation (for claim C4) -/

theorem isLineBreak_isSpace {c : Char} (h : isLineBreakChar c = true) :
    isSpaceChar c = true := by
  simp only [isLineBreakChar, Bool.or_eq_true, decide_eq_true_eq] at h
  simp only [isSpaceChar, Bool.or_eq_true, decide_eq_true_eq]
  omega

theorem pyStrip_eq_nil_iff {l : List Char} :
    pyStrip l = [] ↔ ∀ c ∈ l, isSpaceChar c = true := by
  unfold pyStrip
  constructor
  · intro h c hc
    have h1 : (l.dropWhile isSpaceChar).reverse.dropWhile isSpaceChar = [] := by
      simpa using h
    have h2 : ∀ c ∈ l.dropWhile isSpaceChar, isSpaceChar c = true := by
      intro c hc
      exact List.dropWhile_eq_nil_iff.mp h1 c (List.mem_reverse.mpr hc)
    rcases (List.mem_append.mp
        ((List.takeWhile_append_dropWhile (p := isSpaceChar) (l := l)) ▸ hc)) with
        hmem | hmem
    · exact List.mem_takeWhile_imp hmem
    · exact h2 c hmem
  · intro h
    rw [List.dropWhile_eq_nil_iff.mpr h]
    rfl

theorem pySplitlinesAux_crlf {acc rest : List Char} :
    pySplitlinesAux acc ('\r' :: '\n' :: rest) =
      acc.reverse :: (if rest.isEmpty then [] else pySplitlinesAux [] rest) := rfl

theorem pySplitlinesAux_break {acc : List Char} {c : Char} {rest : List Char}
    (hpair : ∀ r, c = '\r' → rest = '\n' :: r → False)
    (hc : isLineBreakChar c = true) :
    pySplitlinesAux acc (c :: rest) =
      acc.reverse :: (if rest.isEmpty then [] else pySplitlinesAux [] rest) := by
  rw [pySplitlinesAux.eq_def]
  split
  · rename_i heq
    exact absurd heq (by simp)
  · rename_i r heq
    injection heq with h1 h2
    exact (hpair r h1 h2).elim
  · rename_i cN restN hne heq
    injection heq with h1 h2
    subst h1
    subst h2
    rw [if_pos hc]

theorem pySplitlinesAux_shift {acc : List Char} {c : Char} {rest : List Char}
    (hc : isLineBreakChar c = false) :
    pySplitlinesAux acc (c :: rest) = pySplitlinesAux (c :: acc) rest := by
  rw [pySplitlinesAux.eq_def]
  split
  · rename_i heq
    exact absurd heq (by simp)
  · rename_i r heq
    injection heq with h1 h2
    subst h1
    exact absurd hc (by decide)
  · rename_i cN restN hne heq
    injection heq with h1 h2
    subst h1
    subst h2
    rw [if_neg (by simp [hc])]

theorem pySplitlinesAux_all_space (acc s : List Char) :
    (∀ l ∈ pySplitlinesAux acc s, ∀ c ∈ l, isSpaceChar c = true) ↔
      ((∀ c ∈ acc, isSpaceChar c = true) ∧ ∀ c ∈ s, isSpaceChar c = true) := by
  induction acc, s using pySplitlinesAux.induct with
  | case1 acc =>
    simp [pySplitlinesAux]
  | case2 acc rest ih =>
    have hr : isSpaceChar '\r' = true := by decide
    have hn : isSpaceChar '\n' = true := by decide
    by_cases hre : rest.isEmpty
    · have : rest = [] := List.isEmpty_iff.mp hre
      subst this
      simp [pySplitlinesAux, hr, hn]
    · rw [pySplitlinesAux_crlf, if_neg hre]
      simp only [List.mem_cons, forall_eq_or_imp, List.mem_reverse]
      rw [show (∀ l, l ∈ pySplitlinesAux [] rest → ∀ c ∈ l, isSpaceChar c = true) ↔
            ((∀ c ∈ ([] : List Char), isSpaceChar c = true) ∧
              ∀ c ∈ rest, isSpaceChar c = true) from ih]
      simp [hr, hn]
  | case3 acc c rest hpair hc ih =>
    have hcs : isSpaceChar c = true := isLineBreak_isSpace hc
    by_cases hre : rest.isEmpty
    · have : rest = [] := List.isEmpty_iff.mp hre
      subst this
      rw [pySplitlinesAux_break hpair hc]
      simp [hcs]
    · rw [pySplitlinesAux_break hpair hc, if_neg hre]
      simp only [List.mem_cons, forall_eq_or_imp, List.mem_reverse]
      rw [show (∀ l, l ∈ pySplitlinesAux [] rest → ∀ c ∈ l, isSpaceChar c = true) ↔
            ((∀ c ∈ ([] : List Char), isSpaceChar c = true) ∧
              ∀ c ∈ rest, isSpaceChar c = true) from ih]
      simp [hcs]
  | case4 acc c rest hpair hc ih =>
    rw [pySplitlinesAux_shift (Bool.not_eq_true _ ▸ hc)]
    rw [ih]
    simp only [List.mem_cons, forall_eq_or_imp]
    tauto

theorem pySplitlines_all_space (s : List Char) :
    (∀ l ∈ pySplitlines s, ∀ c ∈ l, isSpaceChar c = true) ↔
      ∀ c ∈ s, isSpaceChar c = true := by
  unfold pySplitlines
  by_cases hs : s.isEmpty
  · have : s = [] := List.isEmpty_iff.mp hs
    subst this
    simp
  · rw [if_neg hs, pySplitlinesAux_all_space]
    simp

theorem nonBlank_nil_iff (raw : List Char) :
    ((pySplitlines raw).filter (fun l => !(pyStrip l).isEmpty) = []) ↔
      (pyStrip raw).isEmpty = true := by
  rw [List.isEmpty_iff, pyStrip_eq_nil_iff, ← pySplitlines_all_space,
    List.filter_eq_nil_iff]
  constructor
  · intro h l hl c hc
    have hx := h l hl
    have hnil : pyStrip l = [] := by
      by_contra hne
      apply hx
      simp [List.isEmpty_iff, hne]
    exact pyStrip_eq_nil_iff.mp hnil c hc
  · intro h l hl
    have hnil : pyStrip l = [] := pyStrip_eq_nil_iff.mpr (h l hl)
    simp [hnil]


/-! ### Claim C4 -/

/-- C4: for every input string, validation runs five checks in a fixed order
with first failure winning and no partial result: zero non-blank lines raises
`FileEmptyError`; else fewer than 3 non-blank lines, a timestamp first line, a
non-timestamp second line, or a timestamp third line each raise
`FileInvalidFormatError`; otherwise validation passes. -/
theorem c4_validate_transcript_format_spec (raw : List Char) :
    validate_transcript_format raw =
      (if ((pySplitlines raw).filter (fun l => !(pyStrip l).isEmpty)).length = 0 then
        .error .fileEmptyError
       else if ((pySplitlines raw).filter (fun l => !(pyStrip l).isEmpty)).length < 3 then
        .error (.fileInvalidFormatError minimumLinesMessage)
       else if isTimestampLine
          (((pySplitlines raw).filter (fun l => !(pyStrip l).isEmpty)).getD 0 []) then
        .error (.fileInvalidFormatError firstLineMessage)
       else if !isTimestampLine
          (((pySplitlines raw).filter (fun l => !(pyStrip l).isEmpty)).getD 1 []) then
        .error (.fileInvalidFormatError secondLineMessage)
       else if isTimestampLine
          (((pySplitlines raw).filter (fun l => !(pyStrip l).isEmpty)).getD 2 []) then
        .error (.fileInvalidFormatError thirdLineMessage)
       else .ok ()) := by
  simp only [validate_transcript_format]
  by_cases h : (pyStrip raw).isEmpty = true
  · rw [if_pos h]
    have h0 : (pySplitlines raw).filter (fun l => !(pyStrip l).isEmpty) = [] :=
      (nonBlank_nil_iff raw).mpr h
    rw [h0]
    rfl
  · rw [if_neg h]
    have h0 : ¬ ((pySplitlines raw).filter (fun l => !(pyStrip l).isEmpty) = []) :=
      fun hx => h ((nonBlank_nil_iff raw).mp hx)
    have hlen : ¬ (((pySplitlines raw).filter
        (fun l => !(pyStrip l).isEmpty)).length = 0) := by
      simpa [List.length_eq_zero] using h0
    rw [if_neg hlen]


/-! ### Claim C3: round trip of the codec -/

/-- Parsing the rendered form of `t` whole seconds recovers `t`, provided the
hour field fits the grammar's 1-3 digits (`t < 3600000`). -/
theorem render_parses_back (t : ℕ) (ht : t < 3600000) :
    timestamp_to_seconds
        (if t / 3600 > 0 then
          natDigits (t / 3600) ++ ':' ::
            (pad2 (t % 3600 / 60) ++ ':' :: pad2 (t % 60))
         else natDigits (t % 3600 / 60) ++ ':' :: pad2 (t % 60)) =
      .ok ((t : ℕ) : ℚ) := by
  have hm : t % 3600 / 60 < 60 := by omega
  have hs : t % 60 < 60 := by omega
  have hmfacts := natDigits_facts_60 _ hm
  have hmpad := pad2_facts _ hm
  have hsfacts := pad2_facts _ hs
  by_cases hh : t / 3600 > 0
  · rw [if_pos hh]
    have hhb : t / 3600 < 1000 := by omega
    have hhfacts := natDigits_facts_1000 _ hhb
    have hAd : allCharsDigits (natDigits (t / 3600)) = true := hhfacts.2.2.1
    have hBd : allCharsDigits (pad2 (t % 3600 / 60)) = true := hmpad.2.2.2
    have hCd : allCharsDigits (pad2 (t % 60)) = true := hsfacts.2.2.2
    have hnospace : ∀ c ∈ natDigits (t / 3600) ++ ':' ::
        (pad2 (t % 3600 / 60) ++ ':' :: pad2 (t % 60)), isSpaceChar c = false := by
      intro c hc
      rcases List.mem_append.mp hc with h | h
      · exact allCharsDigits_no_space hAd c h
      · rcases List.mem_cons.mp h with rfl | h
        · decide
        · rcases List.mem_append.mp h with h | h
          · exact allCharsDigits_no_space hBd c h
          · rcases List.mem_cons.mp h with rfl | h
            · decide
            · exact allCharsDigits_no_space hCd c h
    have hsp : splitCol (pyStrip (natDigits (t / 3600) ++ ':' ::
        (pad2 (t % 3600 / 60) ++ ':' :: pad2 (t % 60)))) =
        [natDigits (t / 3600), pad2 (t % 3600 / 60), pad2 (t % 60)] := by
      rw [pyStrip_eq_self hnospace,
          splitCol_append_colon (allCharsDigits_no_colon hAd),
          splitCol_append_colon (allCharsDigits_no_colon hBd),
          splitCol_no_colon (allCharsDigits_no_colon hCd)]
    rw [timestamp_to_seconds_three_parts hsp hhfacts.1 hhfacts.2.1 hAd
        hmpad.1 hsfacts.1]
    rw [hhfacts.2.2.2, hmpad.2.2.1, hsfacts.2.2.1]
    have hval : t / 3600 * 3600 + t % 3600 / 60 * 60 + t % 60 = t := by omega
    rw [hval]
  · rw [if_neg hh]
    have hAd : allCharsDigits (natDigits (t % 3600 / 60)) = true := hmfacts.2.2.1
    have hCd : allCharsDigits (pad2 (t % 60)) = true := hsfacts.2.2.2
    have hnospace : ∀ c ∈ natDigits (t % 3600 / 60) ++ ':' :: pad2 (t % 60),
        isSpaceChar c = false := by
      intro c hc
      rcases List.mem_append.mp hc with h | h
      · exact allCharsDigits_no_space hAd c h
      · rcases List.mem_cons.mp h with rfl | h
        · decide
        · exact allCharsDigits_no_space hCd c h
    have hsp : splitCol (pyStrip (natDigits (t % 3600 / 60) ++ ':' ::
        pad2 (t % 60))) = [natDigits (t % 3600 / 60), pad2 (t % 60)] := by
      rw [pyStrip_eq_self hnospace,
          splitCol_append_colon (allCharsDigits_no_colon hAd),
          splitCol_no_colon (allCharsDigits_no_colon hCd)]
    rw [timestamp_to_seconds_two_parts hsp hmfacts.1 hmfacts.2.1 hAd hsfacts.1]
    rw [hmfacts.2.2.2, hsfacts.2.2.1]
    have hval : t % 3600 / 60 * 60 + t % 60 = t := by omega
    rw [hval]

/-- C3 counterexample: at 3,600,000 seconds the rendered hours field has four
digits, which the timestamp grammar rejects, so the round trip errors instead
of returning floor(s). -/
theorem c3_roundtrip_counterexample :
    seconds_to_timestamp (.finite 3600000) = .ok "1000:00:00".toList ∧
    timestamp_to_seconds "1000:00:00".toList =
      .error (.fileInvalidFormatError
        (invalidTimestampMessage "1000:00:00".toList)) := by
  constructor
  · decide
  · decide

/-- C3 (amended): for every non-negative finite float s with floor(s) below
3,600,000 (so the hour field fits in at most three digits),
`timestamp_to_seconds (seconds_to_timestamp s)` succeeds and returns floor(s);
for larger values the round trip raises `FileInvalidFormatError` instead (see
the counterexample at 3,600,000). -/
theorem c3_roundtrip_amended (q : ℚ) (h0 : 0 ≤ q) (hlt : ⌊q⌋ < 3600000) :
    ∃ s : List Char, seconds_to_timestamp (.finite q) = .ok s ∧
      timestamp_to_seconds s = .ok ((⌊q⌋ : ℚ)) := by
  have hq : ¬ q < 0 := not_lt.mpr h0
  have hfl : (0 : ℤ) ≤ ⌊q⌋ := Int.floor_nonneg.mpr h0
  have ht : ⌊q⌋.toNat < 3600000 := by omega
  refine ⟨_, seconds_to_timestamp_render q hq, ?_⟩
  rw [render_parses_back _ ht]
  have hcast : ((⌊q⌋.toNat : ℤ)) = ⌊q⌋ := Int.toNat_of_nonneg hfl
  exact congrArg Except.ok
    (by exact_mod_cast congrArg (fun z : ℤ => (z : ℚ)) hcast)

/-- Witness for C3 at the concrete value 4530.7: formatting yields 1:15:30 and
parsing it back yields 4530 = floor(4530.7). -/
theorem c3_roundtrip_amended_witness :
    (0 : ℚ) ≤ Rat.mk' 45307 10 ∧ ⌊(Rat.mk' 45307 10 : ℚ)⌋ < 3600000 ∧
    ∃ s : List Char,
      seconds_to_timestamp (.finite (Rat.mk' 45307 10)) = .ok s ∧
      timestamp_to_seconds s = .ok ((⌊(Rat.mk' 45307 10 : ℚ)⌋ : ℚ)) :=
  ⟨by decide, by decide, c3_roundtrip_amended _ (by decide) (by decide)⟩


/-! ### Claim C1: the two-line gap rule -/

theorem timestamp_to_seconds_ok_of_isTimestampLine {s : List Char}
    (h : isTimestampLine s = true) : ∃ q : ℚ, timestamp_to_seconds s = .ok q :=
  timestamp_to_seconds_ok_of_matches h

theorem find_timestamps_sorted (lines : List (List Char)) :
    List.Pairwise (· < ·) (find_timestamps lines) :=
  List.Pairwise.filter _ (List.pairwise_lt_range _)

theorem find_timestamps_mem {lines : List (List Char)} {j : ℕ}
    (h : j ∈ find_timestamps lines) :
    isTimestampLine (lines.getD j []) = true := by
  unfold find_timestamps at h
  simpa using List.of_mem_filter h

/-- Element-wise characterisation of `_find_subsequent_chapters` on any index
list all of whose entries point at timestamp lines: the result is defined, and
a metadata record is in it exactly when some adjacent index pair has an
integer gap of exactly two lines, the record pointing at the pair's second
index with the line before it as title. -/
theorem find_subsequent_chapters_char (lines : List (List Char)) :
    ∀ idxs : List ℕ, (∀ j ∈ idxs, isTimestampLine (lines.getD j []) = true) →
      ∃ chs, find_subsequent_chapters lines idxs = .ok chs ∧
        ∀ meta : ChapterMeta, meta ∈ chs ↔
          ∃ k, k + 1 < idxs.length ∧
            ((idxs.getD (k + 1) 0 : ℤ) - (idxs.getD k 0 : ℤ) - 1 = 2) ∧
            meta.transcript_start = idxs.getD (k + 1) 0 ∧
            meta.title_index = idxs.getD (k + 1) 0 - 1 ∧
            meta.title = lines.getD (idxs.getD (k + 1) 0 - 1) [] ∧
            timestamp_to_seconds (lines.getD (idxs.getD (k + 1) 0) []) =
              .ok meta.start_time := by
  intro idxs
  induction idxs using find_subsequent_chapters.induct lines with
  | case1 cur next rest hgap ih =>
    intro hall
    obtain ⟨tailChs, htail, hiff⟩ := ih (fun j hj => hall j (List.mem_cons_of_mem _ hj))
    obtain ⟨q, hq⟩ := timestamp_to_seconds_ok_of_isTimestampLine
      (hall next (List.mem_cons_of_mem _ (List.mem_cons_self _ _)))
    refine ⟨{ title_index := next - 1, title := lines.getD (next - 1) [],
              start_time := q, transcript_start := next } :: tailChs, ?_, ?_⟩
    · simp only [find_subsequent_chapters, if_pos hgap, hq, htail, exceptBind_ok]
    · intro meta
      simp only [List.mem_cons]
      constructor
      · rintro (rfl | hmem)
        · refine ⟨0, by simp, by simpa using hgap, by simp, by simp, by simp, ?_⟩
          simpa using hq
        · obtain ⟨k, hk1, hk2, hk3, hk4, hk5, hk6⟩ := (hiff meta).mp hmem
          exact ⟨k + 1, by simpa using hk1, by simpa using hk2,
            by simpa using hk3, by simpa using hk4, by simpa using hk5,
            by simpa using hk6⟩
      · rintro ⟨k, hk1, hk2, hk3, hk4, hk5, hk6⟩
        cases k with
        | zero =>
          left
          simp only [List.getD_cons_succ, List.getD_cons_zero] at hk2 hk3 hk4 hk5 hk6
          obtain ⟨ti, tt, st, ts⟩ := meta
          simp only at hk3 hk4 hk5 hk6 ⊢
          subst hk3
          subst hk4
          subst hk5
          rw [hq] at hk6
          injection hk6 with hq2
          rw [hq2]
        | succ k =>
          right
          refine (hiff meta).mpr ⟨k, ?_, ?_, ?_, ?_, ?_, ?_⟩
          · simpa using hk1
          · simpa using hk2
          · simpa using hk3
          · simpa using hk4
          · simpa using hk5
          · simpa using hk6
  | case2 cur next rest hgap ih =>
    intro hall
    obtain ⟨tailChs, htail, hiff⟩ := ih (fun j hj => hall j (List.mem_cons_of_mem _ hj))
    refine ⟨tailChs, ?_, ?_⟩
    · simp only [find_subsequent_chapters, if_neg hgap, htail]
    · intro meta
      rw [hiff meta]
      constructor
      · rintro ⟨k, hk1, hk2, hk3, hk4, hk5, hk6⟩
        exact ⟨k + 1, by simpa using hk1, by simpa using hk2, by simpa using hk3,
          by simpa using hk4, by simpa using hk5, by simpa using hk6⟩
      · rintro ⟨k, hk1, hk2, hk3, hk4, hk5, hk6⟩
        cases k with
        | zero =>
          simp only [List.getD_cons_succ, List.getD_cons_zero] at hk2
          exact absurd hk2 hgap
        | succ k =>
          refine ⟨k, ?_, ?_, ?_, ?_, ?_, ?_⟩
          · simpa using hk1
          · simpa using hk2
          · simpa using hk3
          · simpa using hk4
          · simpa using hk5
          · simpa using hk6
  | case3 t hshape =>
    intro hall
    refine ⟨[], ?_, ?_⟩
    · match t, hshape with
      | [], _ => rfl
      | [x], _ => rfl
      | x :: y :: r, hshape => exact ((hshape x y r rfl).elim : _)
    · intro meta
      simp only [List.not_mem_nil, false_iff]
      rintro ⟨k, hk1, -⟩
      match t, hshape with
      | [], _ => exact absurd hk1 (by simp)
      | [x], _ => exact absurd hk1 (by simp)
      | x :: y :: r, hshape => exact (hshape x y r rfl).elim


theorem sorted_getD_lt {l : List ℕ} (h : List.Pairwise (· < ·) l)
    {a b : ℕ} (hab : a < b) (hb : b < l.length) : l.getD a 0 < l.getD b 0 := by
  have ha : a < l.length := lt_trans hab hb
  rw [List.getD_eq_getElem l 0 ha, List.getD_eq_getElem l 0 hb]
  exact List.pairwise_iff_getElem.mp h a b ha hb hab

/-- C1: for every blank-stripped line sequence and every adjacent pair of
timestamp indices, the segmenter creates a new chapter at that position iff
exactly 2 lines lie strictly between them (the next index equals the current
plus 3); the new chapter's title is the line immediately before the second
timestamp and its start time is that timestamp's parsed value; for any other
gap size no chapter starts there (and every chapter produced starts at some
timestamp index, so the skipped lines stay inside the currently open
chapter's window). -/
theorem c1_gap_rule (lines : List (List Char)) (i : ℕ)
    (hi : i + 1 < (find_timestamps lines).length) :
    ∃ chs, find_subsequent_chapters lines (find_timestamps lines) = .ok chs ∧
      (((find_timestamps lines).getD (i + 1) 0 =
          (find_timestamps lines).getD i 0 + 3) ↔
        ∃ meta ∈ chs,
          meta.transcript_start = (find_timestamps lines).getD (i + 1) 0 ∧
          meta.title_index + 1 = meta.transcript_start ∧
          meta.title =
            lines.getD ((find_timestamps lines).getD (i + 1) 0 - 1) [] ∧
          timestamp_to_seconds
              (lines.getD ((find_timestamps lines).getD (i + 1) 0) []) =
            .ok meta.start_time) ∧
      ∀ meta ∈ chs, meta.transcript_start ∈ find_timestamps lines := by
  obtain ⟨chs, hok, hchar⟩ :=
    find_subsequent_chapters_char lines (find_timestamps lines)
      (fun j hj => find_timestamps_mem hj)
  have hsorted := find_timestamps_sorted lines
  refine ⟨chs, hok, ?_, ?_⟩
  · constructor
    · intro hgap
      have hmem3 : (find_timestamps lines).getD (i + 1) 0 ∈ find_timestamps lines := by
        rw [List.getD_eq_getElem _ 0 hi]
        exact List.getElem_mem hi
      obtain ⟨q, hq⟩ := timestamp_to_seconds_ok_of_isTimestampLine
        (find_timestamps_mem hmem3)
      have hgapZ : ((find_timestamps lines).getD (i + 1) 0 : ℤ) -
          ((find_timestamps lines).getD i 0 : ℤ) - 1 = 2 := by
        rw [hgap]
        push_cast
        ring
      have hpos : 1 ≤ (find_timestamps lines).getD (i + 1) 0 := by omega
      refine ⟨{ title_index := (find_timestamps lines).getD (i + 1) 0 - 1,
                title := lines.getD ((find_timestamps lines).getD (i + 1) 0 - 1) [],
                start_time := q,
                transcript_start := (find_timestamps lines).getD (i + 1) 0 },
              (hchar _).mpr ⟨i, hi, hgapZ, rfl, rfl, rfl, hq⟩, rfl, ?_, rfl, hq⟩
      simp only
      omega
    · rintro ⟨meta, hmem, h1, h2, h3, h4⟩
      obtain ⟨k, hk1, hk2, hk3, -, -, -⟩ := (hchar meta).mp hmem
      have heq : (find_timestamps lines).getD (k + 1) 0 =
          (find_timestamps lines).getD (i + 1) 0 := by
        rw [← hk3, h1]
      have hki : k = i := by
        by_contra hne
        rcases Nat.lt_or_ge (k + 1) (i + 1) with hlt | hge
        · exact absurd heq (ne_of_lt (sorted_getD_lt hsorted hlt hi))
        · have hlt2 : i + 1 < k + 1 := by omega
          exact absurd heq.symm (ne_of_lt (sorted_getD_lt hsorted hlt2 hk1))
      subst hki
      have hcur_lt : (find_timestamps lines).getD k 0 <
          (find_timestamps lines).getD (k + 1) 0 :=
        sorted_getD_lt hsorted (Nat.lt_succ_self k) hk1
      omega
  · intro meta hmem
    obtain ⟨k, hk1, -, hk3, -, -, -⟩ := (hchar meta).mp hmem
    rw [hk3, List.getD_eq_getElem _ 0 hk1]
    exact List.getElem_mem hk1

/-- Witness for C1 on the concrete eight-line transcript: the gap rule fires
for the adjacent timestamp pair (3, 6) and produces the chapter titled by
line 5. -/
theorem c1_gap_rule_witness :
    ∃ chs, find_subsequent_chapters sampleLines (find_timestamps sampleLines) =
        .ok chs ∧
      ∃ meta ∈ chs, meta.transcript_start = 6 ∧ meta.title = "Two".toList := by
  obtain ⟨chs, hok, hiff, -⟩ := c1_gap_rule sampleLines 1 (by decide)
  refine ⟨chs, hok, ?_⟩
  have hgap : (find_timestamps sampleLines).getD 2 0 =
      (find_timestamps sampleLines).getD 1 0 + 3 := by decide
  obtain ⟨meta, hmem, h1, -, h3, -⟩ := hiff.mp hgap
  refine ⟨meta, hmem, ?_, ?_⟩
  · rw [h1]
    decide
  · rw [h3]
    decide


/-! ### Claims C6 and C10: the pairing walk -/

/-- C6: within a chapter content window the pairing walk builds
`TranscriptLine` entries as follows: a timestamp line followed by a
non-timestamp line pairs them into one entry (consuming two lines); two
consecutive timestamp lines yield an entry with empty text for the first,
the second being processed next (consuming one line); a timestamp at the
window end yields an entry with empty text; the walk terminates at the window
boundary (empty window gives the empty result). -/
theorem c6_pairing_walk (l l2 : List Char) (rest : List (List Char))
    (hl : isTimestampLine l = true) :
    ∃ q : ℚ, timestamp_to_seconds l = .ok q ∧
      convert_string_lines_to_transcript_objects [] = .ok [] ∧
      convert_string_lines_to_transcript_objects [l] =
        .ok [{ timestamp := q, text := [] }] ∧
      (isTimestampLine l2 = true →
        convert_string_lines_to_transcript_objects (l :: l2 :: rest) =
          Except.map (fun tail => { timestamp := q, text := [] } :: tail)
            (convert_string_lines_to_transcript_objects (l2 :: rest))) ∧
      (isTimestampLine l2 = false →
        convert_string_lines_to_transcript_objects (l :: l2 :: rest) =
          Except.map (fun tail => { timestamp := q, text := l2 } :: tail)
            (convert_string_lines_to_transcript_objects rest)) := by
  obtain ⟨q, hq⟩ := timestamp_to_seconds_ok_of_isTimestampLine hl
  refine ⟨q, hq, rfl, ?_, ?_, ?_⟩
  · simp [convert_string_lines_to_transcript_objects, hl, hq, exceptBind_ok]
  · intro h2
    obtain ⟨v, hv⟩ := convert_total (l2 :: rest)
    simp [convert_string_lines_to_transcript_objects, hl, h2, hq, hv,
      exceptBind_ok, Except.map]
  · intro h2
    obtain ⟨v, hv⟩ := convert_total rest
    simp [convert_string_lines_to_transcript_objects, hl, h2, hq, hv,
      exceptBind_ok, Except.map]

/-- Witness for C6: a timestamp followed by text pairs into one entry; two
consecutive timestamps give the first an empty text. -/
theorem c6_pairing_walk_witness :
    convert_string_lines_to_transcript_objects ["0:05".toList, "hi".toList] =
      .ok [{ timestamp := 5, text := "hi".toList }] ∧
    convert_string_lines_to_transcript_objects ["0:05".toList, "0:07".toList] =
      .ok [{ timestamp := 5, text := [] }, { timestamp := 7, text := [] }] := by
  constructor
  · obtain ⟨q, hq, -, -, -, htext⟩ :=
      c6_pairing_walk "0:05".toList "hi".toList [] (by decide)
    have h5 : timestamp_to_seconds "0:05".toList = .ok (5 : ℚ) := by decide
    have hq5 : q = 5 := by
      injection (hq.symm.trans h5)
    rw [htext (by decide), hq5]
    rfl
  · obtain ⟨q, hq, -, -, hts, -⟩ :=
      c6_pairing_walk "0:05".toList "0:07".toList [] (by decide)
    have h5 : timestamp_to_seconds "0:05".toList = .ok (5 : ℚ) := by decide
    have hq5 : q = 5 := by
      injection (hq.symm.trans h5)
    rw [hts (by decide), hq5]
    decide

/-- C10 (implicit): a non-timestamp line at the head of the walk (that is,
one that does not immediately follow a timestamp line) is silently skipped:
the walk continues on the remaining lines, producing no entry and no error
for it, so its text appears in no `TranscriptLine` of the output. -/
theorem c10_orphan_text_skipped (l : List Char) (rest : List (List Char))
    (hl : isTimestampLine l = false) :
    convert_string_lines_to_transcript_objects (l :: rest) =
      convert_string_lines_to_transcript_objects rest := by
  cases rest <;> simp [convert_string_lines_to_transcript_objects, hl]

/-- Witness for C10: an orphan text line before a timestamp contributes
nothing to the result. -/
theorem c10_orphan_text_skipped_witness :
    convert_string_lines_to_transcript_objects
        ["extra".toList, "0:05".toList, "hi".toList] =
      convert_string_lines_to_transcript_objects ["0:05".toList, "hi".toList] :=
  c10_orphan_text_skipped "extra".toList ["0:05".toList, "hi".toList] (by decide)


/-! ### The chapter-building loop (claims C2 and C5) -/

/-- Structural facts about a successful run of the chapter-building loop: the
chapter start times are the metadata start times in order, every chapter's
start is strictly below its end, every non-last chapter ends where the next
one starts, and the last chapter ends at infinity. -/
theorem build_document_chapters_spec (lines : List (List Char)) :
    ∀ metas chs, build_document_chapters lines metas = .ok chs →
      chs.map Chapter.start_time = metas.map ChapterMeta.start_time ∧
      (∀ ch ∈ chs, (ch.start_time : WithTop ℚ) < ch.end_time) ∧
      (∀ i, i + 1 < chs.length →
        (chs.getD i ⟨[], 0, ⊤, []⟩).end_time =
          ((chs.getD (i + 1) ⟨[], 0, ⊤, []⟩).start_time : WithTop ℚ)) ∧
      (∀ c, chs.getLast? = some c → c.end_time = ⊤) := by
  intro metas
  induction metas using build_document_chapters.induct lines with
  | case1 =>
    intro chs h
    injection h with h
    subst h
    exact ⟨rfl, by simp, by simp, by simp⟩
  | case2 meta =>
    intro chs h
    obtain ⟨tls, htls⟩ :=
      convert_total (listSlice lines meta.transcript_start lines.length)
    simp only [build_document_chapters, htls, exceptBind_ok] at h
    injection h with h
    subst h
    refine ⟨rfl, ?_, ?_, ?_⟩
    · intro ch hch
      rcases List.mem_cons.mp hch with rfl | hch
      · exact WithTop.coe_lt_top _
      · exact absurd hch (List.not_mem_nil _)
    · intro i hi
      exact absurd hi (by simp)
    · intro c hc
      simp only [List.getLast?_singleton, Option.some.injEq] at hc
      rw [← hc]
  | case3 meta next rest hviol =>
    intro chs h
    simp only [build_document_chapters, if_pos hviol] at h
    exact absurd h (by simp)
  | case4 meta next rest hviol ih =>
    intro chs h
    obtain ⟨tls, htls⟩ :=
      convert_total (listSlice lines meta.transcript_start next.title_index)
    rcases hb : build_document_chapters lines (next :: rest) with e | tail
    · rw [build_document_chapters.eq_def] at h
      simp only [if_neg hviol, htls, hb, exceptBind_ok, exceptBind_error] at h
      exact absurd h (by simp)
    · simp only [build_document_chapters, if_neg hviol, htls, hb,
        exceptBind_ok] at h
      injection h with h
      subst h
      obtain ⟨hmap, hlt, hadj, hlast⟩ := ih tail hb
      have hlen : tail.length = rest.length + 1 := by
        have := congrArg List.length hmap
        simpa using this
      cases tail with
      | nil => simp at hlen
      | cons t0 tail2 =>
        have hmap2 := hmap
        simp only [List.map_cons] at hmap2
        injection hmap2 with ht0 hmaptail
        refine ⟨?_, ?_, ?_, ?_⟩
        · simp only [List.map_cons, hmap]
        · intro ch hch
          rcases List.mem_cons.mp hch with rfl | hch
          · exact WithTop.coe_lt_coe.mpr (lt_of_not_le hviol)
          · exact hlt ch hch
        · intro i hi
          cases i with
          | zero =>
            simp only [List.getD_cons_zero, List.getD_cons_succ]
            rw [ht0]
          | succ i =>
            have := hadj i (by simpa using hi)
            simpa using this
        · intro c hc
          apply hlast
          simpa [List.getLast?_cons_cons] using hc

/-- Destructuring a successful parse into its metadata-collection and
chapter-building steps. -/
theorem parse_ok_destruct {raw : List Char} {doc : TranscriptDocument}
    (h : parse_transcript_document raw = .ok doc) :
    ∃ metas,
      collect_chapters_metadata (pySplitlines (sanitize_transcript_spacing raw))
        (find_timestamps (pySplitlines (sanitize_transcript_spacing raw))) =
        .ok metas ∧
      build_document_chapters (pySplitlines (sanitize_transcript_spacing raw))
        metas = .ok doc.chapters := by
  simp only [parse_transcript_document] at h
  rcases hv : validate_transcript_format (sanitize_transcript_spacing raw) with e | u
  · rw [hv, exceptBind_error] at h
    exact absurd h (by simp)
  · rw [hv, exceptBind_ok] at h
    rcases hm : collect_chapters_metadata
        (pySplitlines (sanitize_transcript_spacing raw))
        (find_timestamps (pySplitlines (sanitize_transcript_spacing raw))) with
        e | metas
    · rw [hm, exceptBind_error] at h
      exact absurd h (by simp)
    · rw [hm, exceptBind_ok] at h
      rcases hb : build_document_chapters
          (pySplitlines (sanitize_transcript_spacing raw)) metas with e | chs
      · rw [hb, exceptBind_error] at h
        exact absurd h (by simp)
      · rw [hb, exceptBind_ok] at h
        injection h with h
        refine ⟨metas, rfl, ?_⟩
        rw [← h]
        exact hb

/-! ### Claim C2 -/

/-- C2 counterexample: on `backwardsInput` the parse succeeds, yet the single
chapter (start time 10) contains a transcript line with timestamp 5 — the
claimed invariant start_time ≤ line.timestamp < end_time fails because lines
are bucketed by position, not by timestamp. -/
theorem c2_window_counterexample :
    parse_transcript_document backwardsInput =
      .ok { metadata := emptyVideoMetadata, chapters := [backwardsChapter] } ∧
    { timestamp := (5 : ℚ), text := "text".toList } ∈
      backwardsChapter.transcript_lines ∧
    (5 : ℚ) < backwardsChapter.start_time := by
  refine ⟨by decide, by decide, by decide⟩

/-- C2 (amended): for every input on which `parse_transcript_document`
succeeds, every chapter of the returned document satisfies
start_time < end_time strictly.  (The original claim's second half is false:
a TranscriptLine is placed in a chapter by line position, and its timestamp
need not fall in the chapter's half-open time window — see the
counterexample.) -/
theorem c2_start_lt_end_amended (raw : List Char) (doc : TranscriptDocument)
    (h : parse_transcript_document raw = .ok doc) :
    ∀ ch ∈ doc.chapters, (ch.start_time : WithTop ℚ) < ch.end_time := by
  obtain ⟨metas, -, hb⟩ := parse_ok_destruct h
  exact (build_document_chapters_spec _ metas doc.chapters hb).2.1

/-- Witness for C2 on the two-chapter input. -/
theorem c2_start_lt_end_amended_witness :
    parse_transcript_document twoChapterInput = .ok twoChapterDoc ∧
    ∀ ch ∈ twoChapterDoc.chapters, (ch.start_time : WithTop ℚ) < ch.end_time :=
  ⟨by decide, c2_start_lt_end_amended twoChapterInput twoChapterDoc (by decide)⟩

/-! ### Claim C5 -/

/-- The chapter-building loop fails with the monotonicity error whenever some
adjacent metadata pair is non-increasing. -/
theorem build_document_chapters_monotonic_error (lines : List (List Char)) :
    ∀ metas : List ChapterMeta,
      (∃ k, k + 1 < metas.length ∧
        (metas.getD (k + 1) ⟨0, [], 0, 0⟩).start_time ≤
          (metas.getD k ⟨0, [], 0, 0⟩).start_time) →
      build_document_chapters lines metas =
        .error (.fileInvalidFormatError monotonicMessage) := by
  intro metas
  induction metas using build_document_chapters.induct lines with
  | case1 =>
    rintro ⟨k, hk, -⟩
    simp at hk
  | case2 meta =>
    rintro ⟨k, hk, -⟩
    simp at hk
  | case3 meta next rest hviol =>
    intro _
    simp [build_document_chapters, if_pos hviol]
  | case4 meta next rest hviol ih =>
    rintro ⟨k, hk, hle⟩
    obtain ⟨tls, htls⟩ :=
      convert_total (listSlice lines meta.transcript_start next.title_index)
    cases k with
    | zero =>
      simp only [List.getD_cons_succ, List.getD_cons_zero] at hle
      exact absurd hle hviol
    | succ k =>
      have herr := ih ⟨k, by simpa using hk, by simpa using hle⟩
      simp [build_document_chapters, if_neg hviol, htls, herr, exceptBind_ok,
        exceptBind_error]

/-- A non-increasing pair anywhere in the metadata forces a non-increasing
adjacent pair. -/
theorem adjacent_violation_of_le {metas : List ChapterMeta}
    (h : ∃ i j, i < j ∧ j < metas.length ∧
      (metas.getD j ⟨0, [], 0, 0⟩).start_time ≤
        (metas.getD i ⟨0, [], 0, 0⟩).start_time) :
    ∃ k, k + 1 < metas.length ∧
      (metas.getD (k + 1) ⟨0, [], 0, 0⟩).start_time ≤
        (metas.getD k ⟨0, [], 0, 0⟩).start_time := by
  by_contra hno
  push_neg at hno
  obtain ⟨i, j, hij, hj, hle⟩ := h
  have hmono : ∀ a b : ℕ, a < b → b < metas.length →
      (metas.getD a ⟨0, [], 0, 0⟩).start_time <
        (metas.getD b ⟨0, [], 0, 0⟩).start_time := by
    intro a b
    induction b with
    | zero =>
      intro hab _
      omega
    | succ b ihb =>
      intro hab hb
      rcases Nat.lt_succ_iff_lt_or_eq.mp hab with hlt | heq
      · exact lt_trans (ihb hlt (by omega)) (hno b hb)
      · subst heq
        exact hno a hb
  exact absurd hle (not_le.mpr (hmono i j hij hj))

/-- C5: on success, every chapter's end time equals the next chapter's start
time and the last chapter's end time is infinity; and whenever the inferred
chapter metadata contains a later chapter whose start time is less than or
equal to an earlier one's, parsing raises `FileInvalidFormatError` (the
strictly-increasing check) instead of returning a document. -/
theorem c5_end_time_assignment (raw : List Char) :
    (∀ doc, parse_transcript_document raw = .ok doc →
      (∀ i, i + 1 < doc.chapters.length →
        (doc.chapters.getD i ⟨[], 0, ⊤, []⟩).end_time =
          ((doc.chapters.getD (i + 1) ⟨[], 0, ⊤, []⟩).start_time :
            WithTop ℚ)) ∧
      ∀ c, doc.chapters.getLast? = some c → c.end_time = ⊤) ∧
    (∀ metas,
      validate_transcript_format (sanitize_transcript_spacing raw) = .ok () →
      collect_chapters_metadata (pySplitlines (sanitize_transcript_spacing raw))
        (find_timestamps (pySplitlines (sanitize_transcript_spacing raw))) =
        .ok metas →
      (∃ i j, i < j ∧ j < metas.length ∧
        (metas.getD j ⟨0, [], 0, 0⟩).start_time ≤
          (metas.getD i ⟨0, [], 0, 0⟩).start_time) →
      parse_transcript_document raw =
        .error (.fileInvalidFormatError monotonicMessage)) := by
  constructor
  · intro doc h
    obtain ⟨metas, -, hb⟩ := parse_ok_destruct h
    obtain ⟨-, -, hadj, hlast⟩ :=
      build_document_chapters_spec _ metas doc.chapters hb
    exact ⟨hadj, hlast⟩
  · intro metas hv hm hviol
    have herr := build_document_chapters_monotonic_error
      (pySplitlines (sanitize_transcript_spacing raw)) metas
      (adjacent_violation_of_le hviol)
    simp only [parse_transcript_document, hv, hm, herr, exceptBind_ok,
      exceptBind_error]

/-- Witness for C5: the two-chapter input has the first chapter ending where
the second starts and the last chapter unbounded; the out-of-order input is
rejected with the strictly-increasing error. -/
theorem c5_end_time_assignment_witness :
    (parse_transcript_document twoChapterInput = .ok twoChapterDoc ∧
      (twoChapterDoc.chapters.getD 0 ⟨[], 0, ⊤, []⟩).end_time =
        ((twoChapterDoc.chapters.getD 1 ⟨[], 0, ⊤, []⟩).start_time :
          WithTop ℚ) ∧
      ∀ c, twoChapterDoc.chapters.getLast? = some c → c.end_time = ⊤) ∧
    parse_transcript_document outOfOrderInput =
      .error (.fileInvalidFormatError monotonicMessage) := by
  constructor
  · refine ⟨by decide, ?_, ?_⟩
    · exact ((c5_end_time_assignment twoChapterInput).1 twoChapterDoc
        (by decide)).1 0 (by decide)
    · exact ((c5_end_time_assignment twoChapterInput).1 twoChapterDoc
        (by decide)).2
  · exact (c5_end_time_assignment outOfOrderInput).2 outOfOrderMetas
      (by decide) (by decide) ⟨0, 1, by norm_num, by decide, by decide⟩


/-! ### Claim C9: lexicographic comparison of rendered timestamps -/

theorem pyStrLe_refl (x : List Char) : pyStrLe x x = true := by
  simp [pyStrLe]

theorem pyStrLt_cons_same (c : Char) (u v : List Char) :
    pyStrLt (c :: u) (c :: v) = pyStrLt u v := by
  simp [pyStrLt, lt_irrefl]

theorem pyStrLt_append_same : ∀ a u v : List Char,
    pyStrLt (a ++ u) (a ++ v) = pyStrLt u v := by
  intro a
  induction a with
  | nil => intro u v; rfl
  | cons c as ih =>
    intro u v
    simp only [List.cons_append, pyStrLt_cons_same]
    exact ih u v

theorem pyStrLt_append_strict : ∀ a b u v : List Char, a.length = b.length →
    pyStrLt a b = true → pyStrLt (a ++ u) (b ++ v) = true := by
  intro a
  induction a with
  | nil =>
    intro b u v hlen hlt
    cases b with
    | nil => simp [pyStrLt] at hlt
    | cons d bs => simp at hlen
  | cons c as ih =>
    intro b u v hlen hlt
    cases b with
    | nil => simp at hlen
    | cons d bs =>
      simp only [List.cons_append, pyStrLt] at hlt ⊢
      by_cases hcd : c < d
      · simp [hcd]
      · rw [if_neg hcd] at hlt ⊢
        by_cases hdc : d < c
        · rw [if_pos hdc] at hlt
          exact absurd hlt (by simp)
        · rw [if_neg hdc] at hlt ⊢
          exact ih bs u v (by simpa using hlen) hlt

theorem singleDigitChar_lt : ∀ a : ℕ, a < 10 → ∀ b : ℕ, b < 10 → a < b →
    pyStrLt [digitChar a] [digitChar b] = true := by decide

theorem pad2_lt : ∀ a : ℕ, a < 60 → ∀ b : ℕ, b < 60 → a < b →
    pyStrLt (pad2 a) (pad2 b) = true := by decide

theorem natDigits_length_pos (n : ℕ) : 1 ≤ (natDigits n).length := by
  unfold natDigits
  by_cases h : n = 0
  · simp [h]
  · rw [if_neg h, natDigitsRev_succ h]
    simp

/-- Decimal strings of equal length compare lexicographically like their
values. -/
theorem natDigits_lt_lex : ∀ b a : ℕ, a < b →
    (natDigits a).length = (natDigits b).length →
    pyStrLt (natDigits a) (natDigits b) = true := by
  intro b
  induction b using Nat.strong_induction_on with
  | _ b ihb =>
    intro a hab hlen
    by_cases hb10 : b < 10
    · have ha10 : a < 10 := lt_trans hab hb10
      rw [natDigits_single ha10, natDigits_single hb10]
      exact singleDigitChar_lt a ha10 b hb10 hab
    · have hble : 10 ≤ b := le_of_not_lt hb10
      have ha10 : 10 ≤ a := by
        by_contra ha
        push_neg at ha
        rw [natDigits_single ha, natDigits_decomp hble] at hlen
        have h1 := natDigits_length_pos (b / 10)
        rw [List.length_append] at hlen
        simp only [List.length_singleton] at hlen
        omega
      rw [natDigits_decomp ha10, natDigits_decomp hble] at hlen ⊢
      have hlen2 : (natDigits (a / 10)).length = (natDigits (b / 10)).length := by
        simp [List.length_append] at hlen
        omega
      have hdivle : a / 10 ≤ b / 10 := Nat.div_le_div_right hab.le
      rcases lt_or_eq_of_le hdivle with hdlt | hdeq
      · have hpre := ihb (b / 10) (Nat.div_lt_self (by omega) (by norm_num))
          (a / 10) hdlt hlen2
        exact pyStrLt_append_strict _ _ _ _ hlen2 hpre
      · rw [hdeq, pyStrLt_append_same]
        have hmod : a % 10 < b % 10 := by omega
        exact singleDigitChar_lt _ (by omega) _ (by omega) hmod

/-- C9 counterexample: 540 < 600 but the rendered strings compare the other
way around (the unpadded leading field changes digit count: "9:00" is
lexicographically greater than "10:00"), so format output does not compare
consistently with numeric order inside the hours-absent bucket. -/
theorem c9_format_monotonic_counterexample :
    seconds_to_timestamp (.finite 540) = .ok "9:00".toList ∧
    seconds_to_timestamp (.finite 600) = .ok "10:00".toList ∧
    (540 : ℚ) < 600 ∧
    (0 < ⌊(540 : ℚ)⌋.toNat / 3600 ↔ 0 < ⌊(600 : ℚ)⌋.toNat / 3600) ∧
    pyStrLt "9:00".toList "10:00".toList = false ∧
    "9:00".toList ≠ "10:00".toList := by
  refine ⟨by decide, by decide, by norm_num, by decide, by decide, by decide⟩

/-- C9 (amended): for floats 0 ≤ s1 < s2 in the same hour-presence bucket
whose rendered strings additionally have the same length (the unpadded
leading field has the same digit count), the output strings compare
consistently with numeric order: out1 ≤ out2 lexicographically.  Without the
equal-length restriction the claim is false (see the counterexample at
540/600). -/
theorem c9_format_monotonic_amended (q1 q2 : ℚ) (h0 : 0 ≤ q1) (h12 : q1 < q2)
    (out1 out2 : List Char)
    (h1 : seconds_to_timestamp (.finite q1) = .ok out1)
    (h2 : seconds_to_timestamp (.finite q2) = .ok out2)
    (hbucket : 0 < ⌊q1⌋.toNat / 3600 ↔ 0 < ⌊q2⌋.toNat / 3600)
    (hlen : out1.length = out2.length) :
    pyStrLe out1 out2 = true := by
  have hq1 : ¬ q1 < 0 := not_lt.mpr h0
  have hq2 : ¬ q2 < 0 := not_lt.mpr (le_trans h0 h12.le)
  have e1 := (seconds_to_timestamp_render q1 hq1).symm.trans h1
  have e2 := (seconds_to_timestamp_render q2 hq2).symm.trans h2
  injection e1 with e1
  injection e2 with e2
  subst e1
  subst e2
  have hle : ⌊q1⌋.toNat ≤ ⌊q2⌋.toNat :=
    Int.toNat_le_toNat (Int.floor_le_floor h12.le)
  have hs1 : ⌊q1⌋.toNat % 60 < 60 := by omega
  have hs2 : ⌊q2⌋.toNat % 60 < 60 := by omega
  have hm1 : ⌊q1⌋.toNat % 3600 / 60 < 60 := by omega
  have hm2 : ⌊q2⌋.toNat % 3600 / 60 < 60 := by omega
  by_cases hb : 0 < ⌊q1⌋.toNat / 3600
  · have hb2 : 0 < ⌊q2⌋.toNat / 3600 := hbucket.mp hb
    rw [if_pos hb, if_pos hb2] at hlen ⊢
    have hlen2 : (natDigits (⌊q1⌋.toNat / 3600)).length =
        (natDigits (⌊q2⌋.toNat / 3600)).length := by
      have p1 := (pad2_facts _ hm1).2.1
      have p2 := (pad2_facts _ hm2).2.1
      have p3 := (pad2_facts _ hs1).2.1
      have p4 := (pad2_facts _ hs2).2.1
      simp [List.length_append, p1, p2, p3, p4] at hlen
      omega
    have hhle : ⌊q1⌋.toNat / 3600 ≤ ⌊q2⌋.toNat / 3600 :=
      Nat.div_le_div_right hle
    rcases lt_or_eq_of_le hhle with hhlt | hheq
    · have hdig := natDigits_lt_lex _ _ hhlt hlen2
      have hstrict := pyStrLt_append_strict
        (natDigits (⌊q1⌋.toNat / 3600)) (natDigits (⌊q2⌋.toNat / 3600))
        (':' :: (pad2 (⌊q1⌋.toNat % 3600 / 60) ++ ':' :: pad2 (⌊q1⌋.toNat % 60)))
        (':' :: (pad2 (⌊q2⌋.toNat % 3600 / 60) ++ ':' :: pad2 (⌊q2⌋.toNat % 60)))
        hlen2 hdig
      simp [pyStrLe, hstrict]
    · rw [hheq]
      have hmle : ⌊q1⌋.toNat % 3600 / 60 ≤ ⌊q2⌋.toNat % 3600 / 60 := by omega
      rcases lt_or_eq_of_le hmle with hmlt | hmeq
      · have hpadlen : (pad2 (⌊q1⌋.toNat % 3600 / 60)).length =
            (pad2 (⌊q2⌋.toNat % 3600 / 60)).length := by
          rw [(pad2_facts _ hm1).2.1, (pad2_facts _ hm2).2.1]
        have hinner := pyStrLt_append_strict _ _
          (':' :: pad2 (⌊q1⌋.toNat % 60)) (':' :: pad2 (⌊q2⌋.toNat % 60))
          hpadlen (pad2_lt _ hm1 _ hm2 hmlt)
        have hstrict : pyStrLt
            (natDigits (⌊q2⌋.toNat / 3600) ++ ':' ::
              (pad2 (⌊q1⌋.toNat % 3600 / 60) ++ ':' :: pad2 (⌊q1⌋.toNat % 60)))
            (natDigits (⌊q2⌋.toNat / 3600) ++ ':' ::
              (pad2 (⌊q2⌋.toNat % 3600 / 60) ++ ':' :: pad2 (⌊q2⌋.toNat % 60))) =
            true := by
          rw [pyStrLt_append_same, pyStrLt_cons_same]
          exact hinner
        simp [pyStrLe, hstrict]
      · rw [hmeq]
        have hsle : ⌊q1⌋.toNat % 60 ≤ ⌊q2⌋.toNat % 60 := by omega
        rcases lt_or_eq_of_le hsle with hslt | hseq
        · have hstrict : pyStrLt
              (natDigits (⌊q2⌋.toNat / 3600) ++ ':' ::
                (pad2 (⌊q2⌋.toNat % 3600 / 60) ++ ':' :: pad2 (⌊q1⌋.toNat % 60)))
              (natDigits (⌊q2⌋.toNat / 3600) ++ ':' ::
                (pad2 (⌊q2⌋.toNat % 3600 / 60) ++ ':' :: pad2 (⌊q2⌋.toNat % 60))) =
              true := by
            rw [pyStrLt_append_same, pyStrLt_cons_same, pyStrLt_append_same,
              pyStrLt_cons_same]
            exact pad2_lt _ hs1 _ hs2 hslt
          simp [pyStrLe, hstrict]
        · rw [hseq]
          exact pyStrLe_refl _
  · have hb2 : ¬ 0 < ⌊q2⌋.toNat / 3600 := fun h => hb (hbucket.mpr h)
    rw [if_neg hb, if_neg hb2] at hlen ⊢
    have hlen2 : (natDigits (⌊q1⌋.toNat % 3600 / 60)).length =
        (natDigits (⌊q2⌋.toNat % 3600 / 60)).length := by
      have p3 := (pad2_facts _ hs1).2.1
      have p4 := (pad2_facts _ hs2).2.1
      simp [List.length_append, p3, p4] at hlen
      omega
    have hmle : ⌊q1⌋.toNat % 3600 / 60 ≤ ⌊q2⌋.toNat % 3600 / 60 := by omega
    rcases lt_or_eq_of_le hmle with hmlt | hmeq
    · have hdig := natDigits_lt_lex _ _ hmlt hlen2
      have hstrict := pyStrLt_append_strict
        (natDigits (⌊q1⌋.toNat % 3600 / 60)) (natDigits (⌊q2⌋.toNat % 3600 / 60))
        (':' :: pad2 (⌊q1⌋.toNat % 60)) (':' :: pad2 (⌊q2⌋.toNat % 60))
        hlen2 hdig
      simp [pyStrLe, hstrict]
    · rw [hmeq]
      have hsle : ⌊q1⌋.toNat % 60 ≤ ⌊q2⌋.toNat % 60 := by omega
      rcases lt_or_eq_of_le hsle with hslt | hseq
      · have hstrict : pyStrLt
            (natDigits (⌊q2⌋.toNat % 3600 / 60) ++ ':' :: pad2 (⌊q1⌋.toNat % 60))
            (natDigits (⌊q2⌋.toNat % 3600 / 60) ++ ':' :: pad2 (⌊q2⌋.toNat % 60)) =
            true := by
          rw [pyStrLt_append_same, pyStrLt_cons_same]
          exact pad2_lt _ hs1 _ hs2 hslt
        simp [pyStrLe, hstrict]
      · rw [hseq]
        exact pyStrLe_refl _

/-- Witness for C9 at 600 and 660 seconds: both render in the minutes bucket
with two-digit minutes, and "10:00" ≤ "11:00" lexicographically. -/
theorem c9_format_monotonic_amended_witness :
    pyStrLe "10:00".toList "11:00".toList = true :=
  c9_format_monotonic_amended 600 660 (by norm_num) (by norm_num)
    "10:00".toList "11:00".toList (by decide) (by decide) (by decide) (by decide)

end YoutubeToXml
